import Mathlib

/-!
Verification development for the PdfCompressor repository
(`src/compress_pdf.py`), a single-file CLI tool that recompresses the
embedded raster images of a PDF.

The script is shallowly embedded: the per-image pipeline of
`compress_pdf` (extract pixmap, colorspace normalization, integer-ratio
downscale, JPEG re-encode, in-place replacement, processed-set update)
becomes explicit state passing over a `DocState`, and the uncaught
Python exceptions of the unprotected pipeline steps become the `error`
branch of `Except`.  External PyMuPDF operations (pixmap materialization,
colorspace conversion, `Pixmap.shrink`, `tobytes`, `replace_image`) are
modelled as abstract operations whose success or failure is part of the
image description, with their data effect taken from the spec's
description of the external collaborator.
-/

namespace PdfCompressor

/-- A colorspace is abstracted by its channel count `n`
(`pix.colorspace.n` in the source). -/
structure Colorspace where
  n : Nat
deriving DecidableEq, Repr

/-- A pixel buffer (`fitz.Pixmap`): width, height and colorspace. -/
structure Pixmap where
  width : Nat
  height : Nat
  colorspace : Colorspace
deriving DecidableEq, Repr

/-- Description of one embedded image object, keyed by its xref.
The pixel data `pix` is what a successful `fitz.Pixmap(doc, xref)`
materializes; the `Ok` flags record whether each external library call
on this image succeeds (any of them can raise in Python). -/
structure ImageDesc where
  materializeOk : Bool
  pix : Pixmap
  convertOk : Bool
  encodeOk : Bool
  replaceOk : Bool
deriving DecidableEq, Repr

/-- A document: pages in order, each page the xref list returned by
`page.get_images(full=True)` (the source uses `img[0]`, the xref), plus
the image object behind each xref. -/
structure Document where
  pages : List (List Nat)
  images : Nat → ImageDesc

/-- Uncaught Python exceptions that can escape the per-image loop body:
the colorspace conversion on line 55, the `ZeroDivisionError` of the
floor division on line 59, and the `tobytes` re-encode on line 64 are
all outside any `try` block. -/
inductive PdfError where
  | convertFailed
  | zeroDivision
  | encodeFailed
deriving DecidableEq, Repr

/-- A re-encoded JPEG stream, abstracted by the parameters that
determine it: the encoded buffer's dimensions, channel count and
quality. -/
structure Jpeg where
  width : Nat
  height : Nat
  channels : Nat
  quality : Nat
deriving DecidableEq, Repr

/-- Modelled from the spec: conversion of a pixel buffer to the
3-channel RGB colorspace (`fitz.Pixmap(fitz.csRGB, pix)`), an external
PyMuPDF operation; per the spec it yields a 3-channel buffer and leaves
the dimensions alone. -/
def convertRGB (pix : Pixmap) : Pixmap :=
  { pix with colorspace := ⟨3⟩ }

/-- Lines 53-55: if the colorspace has more than 3 channels, convert to
RGB; the conversion call is outside any `try`, so its failure is an
uncaught exception. -/
def normalizePix (desc : ImageDesc) : Except PdfError Pixmap :=
  if desc.pix.colorspace.n > 3 then
    if desc.convertOk then .ok (convertRGB desc.pix) else .error .convertFailed
  else .ok desc.pix

/-- Modelled from the spec: `Pixmap.shrink`, the external integer-ratio
downscale, divides both dimensions by the integer factor. -/
def shrinkPix (pix : Pixmap) (factor : Nat) : Pixmap :=
  { pix with width := pix.width / factor, height := pix.height / factor }

/-- Lines 57-61: if `max(width, height) > max_dimension`, compute
`factor = max(width, height) // max_dimension` (a `ZeroDivisionError`
when `max_dimension = 0`, which nothing guards) and shrink when
`factor > 1`. -/
def downscale (pix : Pixmap) (max_dimension : Nat) : Except PdfError Pixmap :=
  if max pix.width pix.height > max_dimension then
    if max_dimension = 0 then .error .zeroDivision
    else
      let factor := max pix.width pix.height / max_dimension
      if factor > 1 then .ok (shrinkPix pix factor) else .ok pix
  else .ok pix

/-- Line 64: `pix.tobytes("jpg", jpg_quality=quality)`; the call is
outside any `try`, so a failure propagates. -/
def encodeJpg (desc : ImageDesc) (pix : Pixmap) (quality : Nat) : Except PdfError Jpeg :=
  if desc.encodeOk then .ok ⟨pix.width, pix.height, pix.colorspace.n, quality⟩
  else .error .encodeFailed

/-- The mutable state threaded through the image loop: the
`processed_xrefs` set (a duplicate-free list, since an xref is only
added after the membership test passed) and the record of in-place
stream replacements performed so far (`page.replace_image` calls that
succeeded, newest first; an xref absent from `replaced` still has its
original stream). -/
structure DocState where
  processed : List Nat
  replaced : List (Nat × Jpeg)
deriving DecidableEq, Repr

/-- Lines 43-72, the body of the inner image loop for one xref:
skip if already processed; `try: pix = fitz.Pixmap(doc, xref)
except: continue` (note: the `continue` does NOT mark the xref as
processed); colorspace normalization; downscale; re-encode (both
unprotected, an error propagates); `try: page.replace_image(...)
except: pass`; finally add the xref to the processed set. -/
def stepImage (doc : Document) (quality max_dimension : Nat) (st : DocState)
    (xref : Nat) : Except PdfError DocState :=
  if xref ∈ st.processed then .ok st
  else if (doc.images xref).materializeOk then
    match normalizePix (doc.images xref) with
    | .error e => .error e
    | .ok pix1 =>
      match downscale pix1 max_dimension with
      | .error e => .error e
      | .ok pix2 =>
        match encodeJpg (doc.images xref) pix2 quality with
        | .error e => .error e
        | .ok jpeg =>
          .ok { processed := xref :: st.processed,
                replaced :=
                  if (doc.images xref).replaceOk then (xref, jpeg) :: st.replaced
                  else st.replaced }
  else .ok st

/-- The inner loop over one page's image list. -/
def runImages (doc : Document) (quality max_dimension : Nat) :
    DocState → List Nat → Except PdfError DocState
  | st, [] => .ok st
  | st, x :: xs =>
    match stepImage doc quality max_dimension st x with
    | .error e => .error e
    | .ok st' => runImages doc quality max_dimension st' xs

/-- The outer loop over the document's pages (lines 39-72). -/
def runPages (doc : Document) (quality max_dimension : Nat) :
    DocState → List (List Nat) → Except PdfError DocState
  | st, [] => .ok st
  | st, pg :: pgs =>
    match runImages doc quality max_dimension st pg with
    | .error e => .error e
    | .ok st' => runPages doc quality max_dimension st' pgs

/-- The whole image-processing pass of `compress_pdf`, starting from the
empty processed set and an untouched document. -/
def compressDoc (doc : Document) (quality max_dimension : Nat) :
    Except PdfError DocState :=
  runPages doc quality max_dimension ⟨[], []⟩ doc.pages

/-- How many times the stream of `xref` was replaced during the run. -/
def countReplaced (st : DocState) (xref : Nat) : Nat :=
  (st.replaced.map Prod.fst).count xref

/-- The loop-body operations that are NOT guarded by a `try` succeed on
this image: colorspace conversion (when needed) and `tobytes`. -/
def noThrow (doc : Document) (xref : Nat) : Prop :=
  ((doc.images xref).pix.colorspace.n ≤ 3 ∨ (doc.images xref).convertOk = true) ∧
  (doc.images xref).encodeOk = true

instance (doc : Document) (xref : Nat) : Decidable (noThrow doc xref) := by
  unfold noThrow
  infer_instance

/-- The loop invariant tying the replacement record to the processed
set: no xref is replaced twice, a replaced xref is marked processed,
and a processed xref whose replacement call succeeds was replaced. -/
def Inv (doc : Document) (st : DocState) : Prop :=
  ∀ x, countReplaced st x ≤ 1 ∧
    (1 ≤ countReplaced st x → x ∈ st.processed) ∧
    (x ∈ st.processed → (doc.images x).replaceOk = true → 1 ≤ countReplaced st x)

/-- Every external call on this image succeeds (it materializes, its
colorspace conversion is not needed or succeeds, and re-encode and
replacement succeed). -/
def allOk (doc : Document) (xref : Nat) : Prop :=
  (doc.images xref).materializeOk = true ∧
  ((doc.images xref).pix.colorspace.n ≤ 3 ∨ (doc.images xref).convertOk = true) ∧
  (doc.images xref).encodeOk = true ∧
  (doc.images xref).replaceOk = true

instance (doc : Document) (xref : Nat) : Decidable (allOk doc xref) := by
  unfold allOk
  infer_instance

/-! ### Top level of `compress_pdf` and the `__main__` glue -/

/-- Outcome of one `compress_pdf` invocation.  `fileNotFound` is the
early return of lines 29-31 (message printed, nothing else done);
`aborted` is an uncaught exception escaping the image loop (the save on
line 80 is never reached, so no output file is produced and the Python
process dies with a traceback, exit status 1); `done` reaches the save
and prints the size report. -/
inductive CompressResult where
  | fileNotFound (msg : String)
  | aborted (e : PdfError)
  | done (st : DocState) (report : List String)
deriving DecidableEq, Repr

/-- Whether an output file was produced: only the `done` branch reaches
`doc.save(output_path, ...)`. -/
def outputProduced : CompressResult → Bool
  | .done _ _ => true
  | _ => false

/-- Process exit status of the script for each outcome: the
file-not-found early return falls off the end of `__main__` (implicit
success, 0); an uncaught exception makes Python exit non-zero; the
normal path exits 0. -/
def scriptExit : CompressResult → Nat
  | .fileNotFound _ => 0
  | .aborted _ => 1
  | .done _ _ => 0

/-- Lines 5-17, the import-time dependency identity check: when `fitz`
is not PyMuPDF the script prints remediation advice and calls
`sys.exit(1)`; otherwise no exit happens at import time. -/
def fitzImportExit (isPyMuPDF : Bool) : Option Nat :=
  if isPyMuPDF then none else some 1

/-! #### Size report formatting (lines 86-92)

Python formats `size / 1024 / 1024` with `:.2f` and the reduction with
`:.1f`.  The binary floats are modelled as exact rationals, written as
integer numerator/denominator pairs; `:.Nf` rounding is round-half-even
on the scaled value.  At every value a claim touches the rational and
the double agree exactly. -/

/-- Round `num / den` (both naturals, `den > 0`) to the nearest
integer, ties to even. -/
def roundHalfEvenNat (num den : Nat) : Nat :=
  let q := num / den
  let r := num % den
  if 2 * r < den then q
  else if den < 2 * r then q + 1
  else if q % 2 = 0 then q else q + 1

/-- Round `num / den` (`den > 0`) to the nearest integer, ties to even,
for a possibly negative numerator. -/
def roundHalfEvenInt (num den : Int) : Int :=
  let q := num.ediv den
  let r := num.emod den
  if 2 * r < den then q
  else if den < 2 * r then q + 1
  else if q.emod 2 = 0 then q else q + 1

/-- Render a hundredth-scaled natural with two decimal places, as
`:.2f` does on a non-negative value. -/
def render2 (n : Nat) : String :=
  toString (n / 100) ++ "." ++ (if n % 100 < 10 then "0" else "") ++ toString (n % 100)

/-- Render a tenth-scaled integer with one decimal place, as `:.1f`
does. -/
def render1 (n : Int) : String :=
  if n < 0 then "-" ++ toString (n.natAbs / 10) ++ "." ++ toString (n.natAbs % 10)
  else toString (n.natAbs / 10) ++ "." ++ toString (n.natAbs % 10)

/-- A byte count rendered in MiB with two decimals:
`f-string size / 1024 / 1024 :.2f`. -/
def fmtMB (bytes : Nat) : String :=
  render2 (roundHalfEvenNat (bytes * 100) (1024 * 1024))

/-- The reduction percentage `(1 - final/initial) * 100` rendered with
one decimal; as an exact rational this is `(initial - final) * 1000 /
(initial * 10)`, i.e. numerator `(initial - final) * 1000` over
denominator `initial`, scaled by ten for the single decimal digit. -/
def fmtReduction (initial_size final_size : Nat) : String :=
  render1 (roundHalfEvenInt (((initial_size : Int) - (final_size : Int)) * 1000)
    (initial_size : Int))

/-- Lines 89-92: the size report; the reduction line is printed only
when `initial_size > 0`. -/
def sizeReport (initial_size final_size : Nat) : List String :=
  ["Original size: " ++ fmtMB initial_size ++ " MB",
   "Compressed size: " ++ fmtMB final_size ++ " MB"] ++
  (if 0 < initial_size then
    ["Reduction: " ++ fmtReduction initial_size final_size ++ "%"]
  else [])

/-- The body of `compress_pdf` (lines 29-92).  The filesystem is a map
from path to `Option` size (`none` = the path does not exist, the
`os.path.exists` check on line 29).  `final_size` is the size of the
saved output file, produced by the external save. -/
def compress_pdf (fs : String → Option Nat) (doc : Document)
    (input_path output_path : String) (quality max_dimension : Nat)
    (final_size : Nat) : CompressResult :=
  match fs input_path with
  | none => .fileNotFound ("Error: File not found: " ++ input_path)
  | some initial_size =>
    match compressDoc doc quality max_dimension with
    | .error e => .aborted e
    | .ok st => .done st (sizeReport initial_size final_size)

/-! #### `__main__` argument glue (lines 94-110) -/

/-- Modelled from the CPython standard library: `os.path.splitext` on a
POSIX path, over the character list.  `rfind` of a character. -/
def lastIndexOf : List Char → Char → Option Nat
  | [], _ => none
  | a :: rest, c =>
    match lastIndexOf rest c with
    | some i => some (i + 1)
    | none => if a = c then some 0 else none

/-- Modelled from the CPython standard library: `os.path.splitext`
splits at the final dot, except that a run of leading dots of the
basename never starts an extension. -/
def splitextList (cs : List Char) : List Char × List Char :=
  let sepIdx : Int :=
    match lastIndexOf cs '/' with
    | some i => (i : Int)
    | none => -1
  let dotIdx : Int :=
    match lastIndexOf cs '.' with
    | some i => (i : Int)
    | none => -1
  if sepIdx < dotIdx then
    let d := dotIdx.toNat
    let start := (sepIdx + 1).toNat
    if ((cs.drop start).take (d - start)).any (fun c => c ≠ '.') then
      (cs.take d, cs.drop d)
    else (cs, [])
  else (cs, [])

/-- String-level `os.path.splitext`. -/
def splitext (p : String) : String × String :=
  ((splitextList p.data).1.asString, (splitextList p.data).2.asString)

/-- Lines 106-108: when `--output` is missing (or empty, which is also
falsy in Python), the destination is
`name + "_compressed" + ext` with `name, ext = os.path.splitext(input)`. -/
def resolveOutput (output : Option String) (input : String) : String :=
  match output with
  | some o => if o = "" then (splitext input).1 ++ "_compressed" ++ (splitext input).2 else o
  | none => (splitext input).1 ++ "_compressed" ++ (splitext input).2

/-- The parsed command line: `input`, `--output`, `--quality`
(default 30), `--max-dim` (default 2000); argparse checks only the
int type, nothing validates the ranges. -/
structure Args where
  input : String
  output : Option String := none
  quality : Nat := 30
  max_dim : Nat := 2000

/-- Lines 101-110: `__main__` passes the parsed arguments straight to
`compress_pdf`, resolving only the default output path. -/
def mainRun (fs : String → Option Nat) (doc : Document) (args : Args)
    (final_size : Nat) : CompressResult :=
  compress_pdf fs doc args.input (resolveOutput args.output args.input)
    args.quality args.max_dim final_size

/-! #### Concrete documents used by witnesses and counterexamples -/

/-- A well-behaved 3000 x 1000 RGB image where every external call
succeeds. -/
def imgGood : ImageDesc :=
  ⟨true, ⟨3000, 1000, ⟨3⟩⟩, true, true, true⟩

/-- An image whose pixmap materialization raises (corrupt stream). -/
def imgBadStream : ImageDesc :=
  ⟨false, ⟨500, 500, ⟨3⟩⟩, true, true, true⟩

/-- An image whose `tobytes` re-encode raises. -/
def imgBadEncode : ImageDesc :=
  ⟨true, ⟨500, 500, ⟨3⟩⟩, true, false, true⟩

/-- An image whose in-place `replace_image` raises (incompatible
kind). -/
def imgBadReplace : ImageDesc :=
  ⟨true, ⟨500, 500, ⟨3⟩⟩, true, true, false⟩

/-- One page referencing only xref 1, whose image fails to
materialize. -/
def docBadStream : Document :=
  ⟨[[1]], fun _ => imgBadStream⟩

/-- Two pages, both referencing the shared good image at xref 5. -/
def docShared : Document :=
  ⟨[[5], [5]], fun _ => imgGood⟩

/-- Page 1 holds a corrupt-stream image (xref 1), page 2 a valid one
(xref 2). -/
def docMixed : Document :=
  ⟨[[1], [2]], fun x => if x = 1 then imgBadStream else imgGood⟩

/-- A single valid image (xref 1), used to show a `max_dimension = 0`
run aborts. -/
def docOneGood : Document :=
  ⟨[[1]], fun _ => imgGood⟩

/-- A single image whose re-encode fails (xref 1). -/
def docBadEncode : Document :=
  ⟨[[1]], fun _ => imgBadEncode⟩

/-- A single image whose in-place replacement fails (xref 1). -/
def docBadReplace : Document :=
  ⟨[[1]], fun _ => imgBadReplace⟩

/-- A filesystem on which every path exists with size 1000. -/
def fsAll : String → Option Nat :=
  fun _ => some 1000

/-- A filesystem on which no path exists. -/
def fsNone : String → Option Nat :=
  fun _ => none

end PdfCompressor

namespace PdfCompressor

/-! ### Helper lemmas about the per-image step -/

theorem countReplaced_cons_self (st : DocState) (j : Jpeg) (x : Nat) :
    countReplaced ⟨st.processed, (x, j) :: st.replaced⟩ x = countReplaced st x + 1 := by
  simp [countReplaced, List.count_cons]

theorem countReplaced_cons_ne (st : DocState) (j : Jpeg) (x y : Nat) (h : y ≠ x) :
    countReplaced ⟨st.processed, (x, j) :: st.replaced⟩ y = countReplaced st y := by
  simp [countReplaced, List.count_cons, h]

theorem countReplaced_processed_irrel (pr : List Nat) (re : List (Nat × Jpeg)) (pr' : List Nat)
    (y : Nat) : countReplaced ⟨pr, re⟩ y = countReplaced ⟨pr', re⟩ y := by
  simp [countReplaced]

theorem normalizePix_ok (desc : ImageDesc)
    (h : desc.pix.colorspace.n ≤ 3 ∨ desc.convertOk = true) :
    ∃ p, normalizePix desc = .ok p := by
  unfold normalizePix
  by_cases hn : desc.pix.colorspace.n > 3
  · rcases h with hle | hok
    · omega
    · exact ⟨convertRGB desc.pix, by simp [hn, hok]⟩
  · exact ⟨desc.pix, by simp [hn]⟩

theorem downscale_ok (pix : Pixmap) (m : Nat) (hm : 1 ≤ m) :
    ∃ p, downscale pix m = .ok p := by
  unfold downscale
  have hm0 : m ≠ 0 := Nat.one_le_iff_ne_zero.mp hm
  by_cases hgt : max pix.width pix.height > m
  · by_cases hf : max pix.width pix.height / m > 1
    · exact ⟨shrinkPix pix (max pix.width pix.height / m), by simp [hgt, hm0, hf]⟩
    · exact ⟨pix, by simp [hgt, hm0, hf]⟩
  · exact ⟨pix, by simp [hgt]⟩

theorem stepImage_mem (doc : Document) (q m : Nat) (st : DocState) (xref : Nat)
    (h : xref ∈ st.processed) : stepImage doc q m st xref = .ok st := by
  unfold stepImage
  simp [h]

/-- Inversion on a successful step: either it was a no-op skip
(already processed, or the materialization failed), or the xref was
newly processed, marked, and its stream replaced exactly when the
replacement call succeeds. -/
theorem stepImage_ok_inv {doc : Document} {q m : Nat} {st st' : DocState} {xref : Nat}
    (h : stepImage doc q m st xref = .ok st') :
    ((xref ∈ st.processed ∨ (doc.images xref).materializeOk = false) ∧ st' = st) ∨
    (xref ∉ st.processed ∧ (doc.images xref).materializeOk = true ∧
      st'.processed = xref :: st.processed ∧
      (((doc.images xref).replaceOk = true ∧
          ∃ j, st'.replaced = (xref, j) :: st.replaced) ∨
        ((doc.images xref).replaceOk = false ∧ st'.replaced = st.replaced))) := by
  unfold stepImage at h
  by_cases hmem : xref ∈ st.processed
  · simp only [if_pos hmem, Except.ok.injEq] at h
    exact Or.inl ⟨Or.inl hmem, h.symm⟩
  · cases hmat : (doc.images xref).materializeOk with
    | false =>
      simp only [if_neg hmem, hmat, Bool.false_eq_true, if_false, Except.ok.injEq] at h
      exact Or.inl ⟨Or.inr rfl, h.symm⟩
    | true =>
      simp only [if_neg hmem, hmat, if_true] at h
      cases hn : normalizePix (doc.images xref) with
      | error e => simp only [hn] at h; exact absurd h (by simp)
      | ok pix1 =>
        simp only [hn] at h
        cases hd : downscale pix1 m with
        | error e => simp only [hd] at h; exact absurd h (by simp)
        | ok pix2 =>
          simp only [hd] at h
          cases he : encodeJpg (doc.images xref) pix2 q with
          | error e => simp only [he] at h; exact absurd h (by simp)
          | ok jpeg =>
            simp only [he, Except.ok.injEq] at h
            cases hr : (doc.images xref).replaceOk with
            | true =>
              refine Or.inr ⟨hmem, rfl, ?_, Or.inl ⟨rfl, jpeg, ?_⟩⟩
              · rw [← h]
              · rw [← h]
                simp [hr]
            | false =>
              refine Or.inr ⟨hmem, rfl, ?_, Or.inr ⟨rfl, ?_⟩⟩
              · rw [← h]
              · rw [← h]
                simp [hr]

theorem stepImage_processed_mono {doc : Document} {q m : Nat} {st st' : DocState} {xref : Nat}
    (h : stepImage doc q m st xref = .ok st') : st.processed ⊆ st'.processed := by
  rcases stepImage_ok_inv h with ⟨_, rfl⟩ | ⟨_, _, hpr, _⟩
  · exact fun _ hx => hx
  · rw [hpr]
    exact fun _ hx => List.mem_cons_of_mem _ hx

theorem stepImage_covers {doc : Document} {q m : Nat} {st st' : DocState} {xref : Nat}
    (h : stepImage doc q m st xref = .ok st')
    (hmat : (doc.images xref).materializeOk = true) : xref ∈ st'.processed := by
  rcases stepImage_ok_inv h with ⟨hc, rfl⟩ | ⟨_, _, hpr, _⟩
  · rcases hc with hmemb | hfalse
    · exact hmemb
    · rw [hmat] at hfalse
      exact absurd hfalse (by simp)
  · rw [hpr]
    exact List.mem_cons_self _ _

theorem stepImage_count_ne {doc : Document} {q m : Nat} {st st' : DocState} {xref : Nat}
    (h : stepImage doc q m st xref = .ok st') (y : Nat) (hy : y ≠ xref) :
    countReplaced st' y = countReplaced st y := by
  rcases stepImage_ok_inv h with ⟨_, rfl⟩ | ⟨_, _, _, ⟨_, j, hre⟩ | ⟨_, hre⟩⟩
  · rfl
  · calc countReplaced st' y
        = countReplaced ⟨st.processed, st'.replaced⟩ y := countReplaced_processed_irrel _ _ _ _
      _ = countReplaced ⟨st.processed, (xref, j) :: st.replaced⟩ y := by rw [hre]
      _ = countReplaced st y := countReplaced_cons_ne st j xref y hy
  · calc countReplaced st' y
        = countReplaced ⟨st.processed, st'.replaced⟩ y := countReplaced_processed_irrel _ _ _ _
      _ = countReplaced st y := by rw [hre]

theorem stepImage_inv {doc : Document} {q m : Nat} {st st' : DocState} {xref : Nat}
    (h : stepImage doc q m st xref = .ok st') (hInv : Inv doc st) : Inv doc st' := by
  rcases stepImage_ok_inv h with ⟨_, rfl⟩ | ⟨hmem, _, hpr, hrep⟩
  · exact hInv
  · intro y
    by_cases hy : y = xref
    · subst hy
      have hcount0 : countReplaced st y = 0 := by
        by_contra hne
        exact hmem ((hInv y).2.1 (Nat.one_le_iff_ne_zero.mpr hne))
      rcases hrep with ⟨hr, j, hre⟩ | ⟨hr, hre⟩
      · have hc : countReplaced st' y = 1 := by
          calc countReplaced st' y
              = countReplaced ⟨st.processed, (y, j) :: st.replaced⟩ y := by
                rw [← hre]; exact countReplaced_processed_irrel _ _ _ _
            _ = countReplaced st y + 1 := countReplaced_cons_self st j y
            _ = 1 := by rw [hcount0]
        refine ⟨le_of_eq hc, fun _ => ?_, fun _ _ => le_of_eq hc.symm⟩
        rw [hpr]
        exact List.mem_cons_self _ _
      · have hc : countReplaced st' y = 0 := by
          calc countReplaced st' y
              = countReplaced ⟨st.processed, st.replaced⟩ y := by
                rw [← hre]; exact countReplaced_processed_irrel _ _ _ _
            _ = 0 := hcount0
        refine ⟨by omega, fun habs => by omega, fun _ hrt => ?_⟩
        rw [hr] at hrt
        exact absurd hrt (by simp)
    · have hc : countReplaced st' y = countReplaced st y := stepImage_count_ne h y hy
      have hmemiff : y ∈ st'.processed ↔ y ∈ st.processed := by
        rw [hpr]
        simp [hy]
      refine ⟨hc ▸ (hInv y).1, fun h1 => ?_, fun h2 hr => ?_⟩
      · exact hmemiff.mpr ((hInv y).2.1 (hc ▸ h1))
      · exact hc ▸ (hInv y).2.2 (hmemiff.mp h2) hr

theorem stepImage_total (doc : Document) (q m : Nat) (st : DocState) (xref : Nat)
    (hm : 1 ≤ m) (hnt : noThrow doc xref) :
    ∃ st', stepImage doc q m st xref = .ok st' := by
  unfold stepImage
  by_cases hmem : xref ∈ st.processed
  · exact ⟨st, by simp [hmem]⟩
  · cases hmat : (doc.images xref).materializeOk with
    | false => exact ⟨st, by simp [hmem, hmat]⟩
    | true =>
      obtain ⟨pix1, hn⟩ := normalizePix_ok (doc.images xref) hnt.1
      obtain ⟨pix2, hd⟩ := downscale_ok pix1 m hm
      refine ⟨⟨xref :: st.processed,
        if (doc.images xref).replaceOk then
          (xref, ⟨pix2.width, pix2.height, pix2.colorspace.n, q⟩) :: st.replaced
        else st.replaced⟩, ?_⟩
      simp only [if_neg hmem, hmat, if_true]
      simp only [hn, hd]
      unfold encodeJpg
      simp [hnt.2]

/-! ### Helper lemmas about the loops -/

theorem runImages_processed_mono {doc : Document} {q m : Nat} :
    ∀ {xs : List Nat} {st st' : DocState},
      runImages doc q m st xs = .ok st' → st.processed ⊆ st'.processed := by
  intro xs
  induction xs with
  | nil =>
    intro st st' h
    simp only [runImages, Except.ok.injEq] at h
    exact h ▸ fun _ hx => hx
  | cons x xs ih =>
    intro st st' h
    unfold runImages at h
    cases hs : stepImage doc q m st x with
    | error e => rw [hs] at h; exact absurd h (by simp)
    | ok st1 =>
      rw [hs] at h
      exact fun a ha => ih h (stepImage_processed_mono hs ha)

theorem runImages_inv {doc : Document} {q m : Nat} :
    ∀ {xs : List Nat} {st st' : DocState},
      runImages doc q m st xs = .ok st' → Inv doc st → Inv doc st' := by
  intro xs
  induction xs with
  | nil =>
    intro st st' h hI
    simp only [runImages, Except.ok.injEq] at h
    exact h ▸ hI
  | cons x xs ih =>
    intro st st' h hI
    unfold runImages at h
    cases hs : stepImage doc q m st x with
    | error e => rw [hs] at h; exact absurd h (by simp)
    | ok st1 =>
      rw [hs] at h
      exact ih h (stepImage_inv hs hI)

theorem runImages_covers {doc : Document} {q m : Nat} :
    ∀ {xs : List Nat} {st st' : DocState},
      runImages doc q m st xs = .ok st' → ∀ x ∈ xs,
        (doc.images x).materializeOk = true → x ∈ st'.processed := by
  intro xs
  induction xs with
  | nil =>
    intro st st' _ x hx
    exact absurd hx (List.not_mem_nil x)
  | cons a xs ih =>
    intro st st' h x hx hmat
    unfold runImages at h
    cases hs : stepImage doc q m st a with
    | error e => rw [hs] at h; exact absurd h (by simp)
    | ok st1 =>
      rw [hs] at h
      rcases List.mem_cons.mp hx with rfl | hxs
      · exact runImages_processed_mono h (stepImage_covers hs hmat)
      · exact ih h x hxs hmat

theorem runImages_total {doc : Document} {q m : Nat} (hm : 1 ≤ m) :
    ∀ (xs : List Nat), (∀ x ∈ xs, noThrow doc x) →
      ∀ (st : DocState), ∃ st', runImages doc q m st xs = .ok st' := by
  intro xs
  induction xs with
  | nil => exact fun _ st => ⟨st, rfl⟩
  | cons x xs ih =>
    intro hnt st
    obtain ⟨st1, hs⟩ := stepImage_total doc q m st x hm (hnt x (List.mem_cons_self x xs))
    obtain ⟨st', hrest⟩ := ih (fun a ha => hnt a (List.mem_cons_of_mem x ha)) st1
    refine ⟨st', ?_⟩
    unfold runImages
    rw [hs]
    exact hrest

theorem runPages_processed_mono {doc : Document} {q m : Nat} :
    ∀ {pgs : List (List Nat)} {st st' : DocState},
      runPages doc q m st pgs = .ok st' → st.processed ⊆ st'.processed := by
  intro pgs
  induction pgs with
  | nil =>
    intro st st' h
    simp only [runPages, Except.ok.injEq] at h
    exact h ▸ fun _ hx => hx
  | cons pg pgs ih =>
    intro st st' h
    unfold runPages at h
    cases hs : runImages doc q m st pg with
    | error e => rw [hs] at h; exact absurd h (by simp)
    | ok st1 =>
      rw [hs] at h
      exact fun a ha => ih h (runImages_processed_mono hs ha)

theorem runPages_inv {doc : Document} {q m : Nat} :
    ∀ {pgs : List (List Nat)} {st st' : DocState},
      runPages doc q m st pgs = .ok st' → Inv doc st → Inv doc st' := by
  intro pgs
  induction pgs with
  | nil =>
    intro st st' h hI
    simp only [runPages, Except.ok.injEq] at h
    exact h ▸ hI
  | cons pg pgs ih =>
    intro st st' h hI
    unfold runPages at h
    cases hs : runImages doc q m st pg with
    | error e => rw [hs] at h; exact absurd h (by simp)
    | ok st1 =>
      rw [hs] at h
      exact ih h (runImages_inv hs hI)

theorem runPages_covers {doc : Document} {q m : Nat} :
    ∀ {pgs : List (List Nat)} {st st' : DocState},
      runPages doc q m st pgs = .ok st' → ∀ pg ∈ pgs, ∀ x ∈ pg,
        (doc.images x).materializeOk = true → x ∈ st'.processed := by
  intro pgs
  induction pgs with
  | nil =>
    intro st st' _ pg hpg
    exact absurd hpg (List.not_mem_nil pg)
  | cons pg0 pgs ih =>
    intro st st' h pg hpg x hx hmat
    unfold runPages at h
    cases hs : runImages doc q m st pg0 with
    | error e => rw [hs] at h; exact absurd h (by simp)
    | ok st1 =>
      rw [hs] at h
      rcases List.mem_cons.mp hpg with rfl | hpgs
      · exact runPages_processed_mono h (runImages_covers hs x hx hmat)
      · exact ih h pg hpgs x hx hmat

theorem runPages_total {doc : Document} {q m : Nat} (hm : 1 ≤ m) :
    ∀ (pgs : List (List Nat)), (∀ pg ∈ pgs, ∀ x ∈ pg, noThrow doc x) →
      ∀ (st : DocState), ∃ st', runPages doc q m st pgs = .ok st' := by
  intro pgs
  induction pgs with
  | nil => exact fun _ st => ⟨st, rfl⟩
  | cons pg pgs ih =>
    intro hnt st
    obtain ⟨st1, hs⟩ := runImages_total hm pg (hnt pg (List.mem_cons_self pg pgs)) st
    obtain ⟨st', hrest⟩ := ih (fun a ha => hnt a (List.mem_cons_of_mem pg ha)) st1
    refine ⟨st', ?_⟩
    unfold runPages
    rw [hs]
    exact hrest

theorem Inv_init (doc : Document) : Inv doc ⟨[], []⟩ := by
  intro x
  refine ⟨by simp [countReplaced], ?_, ?_⟩
  · intro h
    simp [countReplaced] at h
  · intro h
    exact absurd h (List.not_mem_nil x)

theorem compressDoc_inv {doc : Document} {q m : Nat} {st' : DocState}
    (h : compressDoc doc q m = .ok st') : Inv doc st' :=
  runPages_inv h (Inv_init doc)

theorem compressDoc_covers {doc : Document} {q m : Nat} {st' : DocState}
    (h : compressDoc doc q m = .ok st') : ∀ pg ∈ doc.pages, ∀ x ∈ pg,
      (doc.images x).materializeOk = true → x ∈ st'.processed :=
  runPages_covers h

/-- C1. For every image whose pixel buffer (after any colorspace
conversion) has `max(width, height) = d` and parameter
`m = max_dimension ≥ 1`: if `d > m` and `f = d / m > 1`, the buffer
passed to re-encoding has both dimensions divided by `f`, so its max
dimension is `d / f`; otherwise the dimensions are unchanged. -/
theorem downscale_bound (pix : Pixmap) (m : Nat) (hm : 1 ≤ m) :
    (max pix.width pix.height > m ∧ max pix.width pix.height / m > 1 →
      downscale pix m = .ok (shrinkPix pix (max pix.width pix.height / m)) ∧
        max (shrinkPix pix (max pix.width pix.height / m)).width
            (shrinkPix pix (max pix.width pix.height / m)).height =
          max pix.width pix.height / (max pix.width pix.height / m)) ∧
    (max pix.width pix.height ≤ m ∨ max pix.width pix.height / m ≤ 1 →
      downscale pix m = .ok pix) := by
  have hm0 : m ≠ 0 := Nat.one_le_iff_ne_zero.mp hm
  constructor
  · rintro ⟨hgt, hf⟩
    have h1 : downscale pix m = .ok (shrinkPix pix (max pix.width pix.height / m)) := by
      unfold downscale
      simp [hgt, hm0, hf]
    refine ⟨h1, ?_⟩
    rcases Nat.le_total pix.width pix.height with hwh | hwh
    · have h2 : pix.width / (pix.height / m) ≤ pix.height / (pix.height / m) :=
        Nat.div_le_div_right hwh
      simp [shrinkPix, Nat.max_eq_right hwh, Nat.max_eq_right h2]
    · have h2 : pix.height / (pix.width / m) ≤ pix.width / (pix.width / m) :=
        Nat.div_le_div_right hwh
      simp [shrinkPix, Nat.max_eq_left hwh, Nat.max_eq_left h2]
  · intro h
    unfold downscale
    rcases h with hle | hf1
    · simp [Nat.not_lt.mpr hle]
    · by_cases hgt : max pix.width pix.height > m
      · simp [hgt, hm0, Nat.not_lt.mpr hf1]
      · simp [hgt]

/-- Witness for C1 at a concrete 5000 x 3000 buffer with
`max_dimension = 2000`: the factor is 2 and the result is 2500 x 1500. -/
theorem downscale_bound_witness :
    (1 ≤ 2000) ∧
      (downscale ⟨5000, 3000, ⟨3⟩⟩ 2000 = .ok ⟨2500, 1500, ⟨3⟩⟩ ∧
        max (2500 : Nat) 1500 = 5000 / (5000 / 2000)) := by
  have h := (downscale_bound ⟨5000, 3000, ⟨3⟩⟩ 2000 (by decide)).1 (by decide)
  exact ⟨by decide, by simpa [shrinkPix] using h.1, by decide⟩

/-- C4. For every successfully materialized image: with channel count
at most 3 the buffer is left unchanged before downscaling and
re-encoding; with channel count above 3 (and the conversion call
succeeding) the buffer is converted to a 3-channel colorspace. -/
theorem colorspace_invariant (desc : ImageDesc) :
    (desc.pix.colorspace.n ≤ 3 → normalizePix desc = .ok desc.pix) ∧
    (desc.pix.colorspace.n > 3 → desc.convertOk = true →
      normalizePix desc = .ok (convertRGB desc.pix) ∧
        (convertRGB desc.pix).colorspace.n = 3) := by
  constructor
  · intro hle
    unfold normalizePix
    simp [Nat.not_lt.mpr hle]
  · intro hgt hok
    unfold normalizePix
    simp [hgt, hok, convertRGB]

/-- Witness for C4 at a concrete 4-channel (CMYK-like) image: it is
converted and the result has exactly 3 channels. -/
theorem colorspace_invariant_witness :
    normalizePix ⟨true, ⟨800, 600, ⟨4⟩⟩, true, true, true⟩ =
        .ok (convertRGB ⟨800, 600, ⟨4⟩⟩) ∧
      (convertRGB (⟨800, 600, ⟨4⟩⟩ : Pixmap)).colorspace.n = 3 :=
  (colorspace_invariant ⟨true, ⟨800, 600, ⟨4⟩⟩, true, true, true⟩).2
    (by decide) rfl

/-- C2 counterexample: in `docBadStream` one page references xref 1,
whose materialization fails.  Processing is attempted (the xref passes
the processed-set check), yet after the whole run the processed set is
still empty — the `continue` on line 51 skips the
`processed_xrefs.add(xref)` on line 71, so the id is NOT recorded as
processed, contrary to the claim. -/
theorem materialize_fail_not_marked_cex :
    compressDoc docBadStream 30 2000 = .ok ⟨[], []⟩ ∧
      1 ∉ (⟨[], []⟩ : DocState).processed := by
  exact ⟨rfl, by simp⟩

/-- C2 (amended). When materialization fails the reference id is NOT
added to the processed-set: the loop continues with the next image
leaving the state unchanged, so the id may be re-attempted at later
occurrences.  When materialization succeeds (and the unguarded
conversion and re-encode steps raise nothing), the id is added
unconditionally, whether or not the replacement succeeded. -/
theorem processed_set_update (doc : Document) (q m : Nat) (st : DocState) (xref : Nat) :
    (xref ∉ st.processed → (doc.images xref).materializeOk = false →
      stepImage doc q m st xref = .ok st) ∧
    (xref ∉ st.processed → (doc.images xref).materializeOk = true →
      ((doc.images xref).pix.colorspace.n ≤ 3 ∨ (doc.images xref).convertOk = true) →
      (doc.images xref).encodeOk = true → 1 ≤ m →
      ∃ st', stepImage doc q m st xref = .ok st' ∧
        st'.processed = xref :: st.processed) := by
  constructor
  · intro h1 h2
    unfold stepImage
    simp [h1, h2]
  · intro h1 h2 h3 h4 hm
    obtain ⟨st', hs⟩ := stepImage_total doc q m st xref hm ⟨h3, h4⟩
    refine ⟨st', hs, ?_⟩
    rcases stepImage_ok_inv hs with ⟨hc, rfl⟩ | ⟨_, _, hpr, _⟩
    · rcases hc with hmem | hfalse
      · exact absurd hmem h1
      · rw [h2] at hfalse
        exact absurd hfalse (by simp)
    · exact hpr

/-- Witness for C2 (amended): on `docBadReplace` (replacement fails,
everything else succeeds) xref 1 is still marked processed. -/
theorem processed_set_update_witness :
    ∃ st', stepImage docBadReplace 30 2000 ⟨[], []⟩ 1 = .ok st' ∧
      st'.processed = 1 :: ([] : List Nat) :=
  (processed_set_update docBadReplace 30 2000 ⟨[], []⟩ 1).2
    (by simp) rfl (Or.inl (by decide)) rfl (by decide)

/-- C3 counterexample: in `docBadEncode` the only image materializes
but its `tobytes` re-encode raises.  The call on line 64 is outside
every `try` block, so the exception propagates out of `compress_pdf`:
the run aborts, no output file is produced and the process exits
non-zero — contrary to the claim that every image-level fault
(including re-encoding) is caught within that image's iteration. -/
theorem encode_fail_propagates_cex :
    compress_pdf fsAll docBadEncode "in.pdf" "out.pdf" 30 2000 900 =
        .aborted .encodeFailed ∧
      outputProduced (compress_pdf fsAll docBadEncode "in.pdf" "out.pdf" 30 2000 900) =
        false ∧
      scriptExit (compress_pdf fsAll docBadEncode "in.pdf" "out.pdf" 30 2000 900) = 1 :=
  ⟨rfl, rfl, rfl⟩

/-- C3 (amended). Materialization and replacement failures are caught
within the failing image's iteration and processing continues; but
colorspace-conversion and re-encoding failures are NOT caught and
propagate out of `compress_pdf`.  When no unguarded step raises
(every referenced image converts and encodes cleanly) the run
completes, produces an output file, and every image that materializes
and replaces successfully is compressed, even if other images failed
to materialize. -/
theorem image_fault_isolation (fs : String → Option Nat) (doc : Document)
    (inp outp : String) (q m isz fsz : Nat)
    (hfs : fs inp = some isz) (hm : 1 ≤ m)
    (hnt : ∀ pg ∈ doc.pages, ∀ x ∈ pg, noThrow doc x) :
    outputProduced (compress_pdf fs doc inp outp q m fsz) = true ∧
    scriptExit (compress_pdf fs doc inp outp q m fsz) = 0 ∧
    ∀ st' rpt, compress_pdf fs doc inp outp q m fsz = .done st' rpt →
      ∀ pg ∈ doc.pages, ∀ x ∈ pg, (doc.images x).materializeOk = true →
        (doc.images x).replaceOk = true → 1 ≤ countReplaced st' x := by
  obtain ⟨stf, hrun⟩ := runPages_total hm doc.pages hnt ⟨[], []⟩
  have hc : compressDoc doc q m = .ok stf := hrun
  have hdone : compress_pdf fs doc inp outp q m fsz = .done stf (sizeReport isz fsz) := by
    unfold compress_pdf
    simp only [hfs, hc]
  refine ⟨by rw [hdone]; rfl, by rw [hdone]; rfl, ?_⟩
  intro st' rpt h pg hpg x hx hmat hrep
  have hst : st' = stf := by
    rw [hdone] at h
    exact (CompressResult.done.injEq _ _ _ _).mp h.symm |>.1
  subst hst
  exact ((compressDoc_inv hc) x).2.2 (compressDoc_covers hc pg hpg x hx hmat) hrep

/-- Witness for C3 (amended) on `docMixed`: the corrupt-stream image on
page 1 does not stop the run, an output is produced, and the valid
image (xref 2) is compressed. -/
theorem image_fault_isolation_witness :
    outputProduced (compress_pdf fsAll docMixed "in.pdf" "out.pdf" 30 2000 900) = true ∧
      1 ≤ countReplaced ⟨[2], [(2, ⟨3000, 1000, 3, 30⟩)]⟩ 2 := by
  have h := image_fault_isolation fsAll docMixed "in.pdf" "out.pdf" 30 2000 1000 900
    rfl (by decide) (by decide)
  exact ⟨h.1, h.2.2 ⟨[2], [(2, ⟨3000, 1000, 3, 30⟩)]⟩ (sizeReport 1000 900) rfl
    [2] (by simp [docMixed]) 2 (by simp) rfl rfl⟩

/-- C5. Within one document pass each reference id is
normalized/compressed at most once: whenever the id is already in the
processed-set the loop body is a no-op, no id's stream is replaced
twice, and an id that is referenced by any page and whose external
calls all succeed is replaced exactly once, however many pages
reference it. -/
theorem idempotent_skip (doc : Document) (q m : Nat) :
    (∀ (st : DocState) (xref : Nat), xref ∈ st.processed →
      stepImage doc q m st xref = .ok st) ∧
    (∀ st' : DocState, compressDoc doc q m = .ok st' →
      (∀ x, countReplaced st' x ≤ 1) ∧
      (∀ pg ∈ doc.pages, ∀ x ∈ pg, (doc.images x).materializeOk = true →
        (doc.images x).replaceOk = true → countReplaced st' x = 1)) := by
  constructor
  · exact fun st xref h => stepImage_mem doc q m st xref h
  · intro st' h
    have hI := compressDoc_inv h
    refine ⟨fun x => (hI x).1, fun pg hpg x hx hmat hrep => ?_⟩
    have hmem := compressDoc_covers h pg hpg x hx hmat
    exact Nat.le_antisymm (hI x).1 ((hI x).2.2 hmem hrep)

/-- Witness for C5 on `docShared` (two pages share xref 5): the skip is
a no-op and the shared image is replaced exactly once over the whole
run. -/
theorem idempotent_skip_witness :
    stepImage docShared 30 2000 ⟨[5], [(5, ⟨3000, 1000, 3, 30⟩)]⟩ 5 =
        .ok ⟨[5], [(5, ⟨3000, 1000, 3, 30⟩)]⟩ ∧
      countReplaced ⟨[5], [(5, ⟨3000, 1000, 3, 30⟩)]⟩ 5 = 1 := by
  constructor
  · exact (idempotent_skip docShared 30 2000).1 ⟨[5], [(5, ⟨3000, 1000, 3, 30⟩)]⟩ 5
      (by simp)
  · exact ((idempotent_skip docShared 30 2000).2 ⟨[5], [(5, ⟨3000, 1000, 3, 30⟩)]⟩
      rfl).2 [5] (by simp [docShared]) 5 (by simp) rfl rfl

/-- C8. When the in-place replacement call fails, the replacement
record — the document state for that image — is exactly what it was
before the attempt, and the loop body still returns normally with the
id marked processed: the failure is silently recovered and processing
continues with the next image. -/
theorem replace_failure_untouched (doc : Document) (q m : Nat) (st : DocState) (xref : Nat)
    (h1 : xref ∉ st.processed) (h2 : (doc.images xref).materializeOk = true)
    (h3 : (doc.images xref).pix.colorspace.n ≤ 3 ∨ (doc.images xref).convertOk = true)
    (h4 : (doc.images xref).encodeOk = true) (h5 : (doc.images xref).replaceOk = false)
    (hm : 1 ≤ m) :
    stepImage doc q m st xref = .ok ⟨xref :: st.processed, st.replaced⟩ := by
  obtain ⟨st', hs⟩ := stepImage_total doc q m st xref hm ⟨h3, h4⟩
  rcases stepImage_ok_inv hs with ⟨hc, rfl⟩ | ⟨_, _, hpr, hrep⟩
  · rcases hc with hmem | hfalse
    · exact absurd hmem h1
    · rw [h2] at hfalse
      exact absurd hfalse (by simp)
  · rcases hrep with ⟨hrt, _, _⟩ | ⟨_, hre⟩
    · rw [h5] at hrt
      exact absurd hrt (by simp)
    · rw [hs]
      cases st' with
      | mk pr re =>
        simp only at hpr hre
        rw [hpr, hre]

/-- Witness for C8 on `docBadReplace`: the replacement record stays
empty while xref 1 is marked processed. -/
theorem replace_failure_untouched_witness :
    stepImage docBadReplace 30 2000 ⟨[], []⟩ 1 = .ok ⟨[1], []⟩ :=
  replace_failure_untouched docBadReplace 30 2000 ⟨[], []⟩ 1
    (by simp) rfl (Or.inl (by decide)) rfl rfl (by decide)

/-- C10. The floor division `max(width, height) // max_dimension` on
line 59 is unguarded: under the precondition `max_dimension ≥ 1` it
never raises, but with `max_dimension = 0` and a materializable image of
positive dimension it raises `ZeroDivisionError`, and — since neither
`__main__` nor `compress_pdf` validates the value — the whole run
aborts. -/
theorem zero_max_dimension (pix : Pixmap) (m : Nat) :
    (1 ≤ m → downscale pix m ≠ .error .zeroDivision) ∧
    (0 < max pix.width pix.height → downscale pix 0 = .error .zeroDivision) ∧
    mainRun fsAll docOneGood ⟨"in.pdf", none, 30, 0⟩ 900 = .aborted .zeroDivision := by
  refine ⟨?_, ?_, rfl⟩
  · intro hm
    obtain ⟨p, hp⟩ := downscale_ok pix m hm
    rw [hp]
    simp
  · intro hpos
    unfold downscale
    simp [hpos]

/-- Witness for C10 at a 3000 x 1000 buffer: with `max_dimension =
2000` nothing raises, with `max_dimension = 0` the division raises, and
the command-line run with `--max-dim 0` aborts. -/
theorem zero_max_dimension_witness :
    (downscale ⟨3000, 1000, ⟨3⟩⟩ 2000 ≠ .error .zeroDivision) ∧
      downscale ⟨3000, 1000, ⟨3⟩⟩ 0 = .error .zeroDivision ∧
      mainRun fsAll docOneGood ⟨"in.pdf", none, 30, 0⟩ 900 = .aborted .zeroDivision :=
  ⟨(zero_max_dimension ⟨3000, 1000, ⟨3⟩⟩ 2000).1 (by decide),
    (zero_max_dimension ⟨3000, 1000, ⟨3⟩⟩ 0).2.1 (by decide),
    (zero_max_dimension ⟨3000, 1000, ⟨3⟩⟩ 0).2.2⟩

/-- C6. When the input path does not exist, `compress_pdf` prints an
error naming the path, produces no output file, performs no document
processing (the result does not depend on the document at all), and
returns early so the process exits 0 — unlike the dependency-check
failure path, which exits 1. -/
theorem missing_input_early_return (fs : String → Option Nat) (doc doc' : Document)
    (inp outp : String) (q m fsz fsz' : Nat) (h : fs inp = none) :
    compress_pdf fs doc inp outp q m fsz =
        .fileNotFound ("Error: File not found: " ++ inp) ∧
      outputProduced (compress_pdf fs doc inp outp q m fsz) = false ∧
      scriptExit (compress_pdf fs doc inp outp q m fsz) = 0 ∧
      compress_pdf fs doc inp outp q m fsz = compress_pdf fs doc' inp outp q m fsz' ∧
      fitzImportExit false = some 1 := by
  have he : ∀ (d : Document) (z : Nat), compress_pdf fs d inp outp q m z =
      .fileNotFound ("Error: File not found: " ++ inp) := by
    intro d z
    unfold compress_pdf
    simp only [h]
  refine ⟨he doc fsz, ?_, ?_, ?_, rfl⟩
  · rw [he doc fsz]
    rfl
  · rw [he doc fsz]
    rfl
  · rw [he doc fsz, he doc' fsz']

/-- Witness for C6 on the empty filesystem: concrete invocation with a
missing input file. -/
theorem missing_input_early_return_witness :
    compress_pdf fsNone docOneGood "missing.pdf" "out.pdf" 30 2000 0 =
        .fileNotFound ("Error: File not found: " ++ "missing.pdf") ∧
      outputProduced
          (compress_pdf fsNone docOneGood "missing.pdf" "out.pdf" 30 2000 0) = false ∧
      scriptExit
          (compress_pdf fsNone docOneGood "missing.pdf" "out.pdf" 30 2000 0) = 0 ∧
      compress_pdf fsNone docOneGood "missing.pdf" "out.pdf" 30 2000 0 =
        compress_pdf fsNone docBadStream "missing.pdf" "out.pdf" 30 2000 77 ∧
      fitzImportExit false = some 1 :=
  missing_input_early_return fsNone docOneGood docBadStream "missing.pdf" "out.pdf"
    30 2000 0 77 rfl

/-- C7. The size report: sizes are printed in MiB (`bytes / 1024 /
1024`) with two decimals, the reduction `(1 - final/initial) * 100`
with one decimal, and the reduction line appears exactly when the
initial size is positive; at 10,485,760 and 5,242,880 bytes the three
lines are exactly those of the spec's scenario. -/
theorem size_report_scenario :
    sizeReport 10485760 5242880 =
        ["Original size: 10.00 MB", "Compressed size: 5.00 MB", "Reduction: 50.0%"] ∧
      ∀ initial_size final_size : Nat,
        (sizeReport initial_size final_size).length =
          if 0 < initial_size then 3 else 2 := by
  constructor
  · rfl
  · intro i f
    by_cases hi : 0 < i
    · simp [sizeReport, hi]
    · simp [sizeReport, hi]

/-- The two halves of `os.path.splitext` always reassemble the input
path. -/
theorem splitextList_append (cs : List Char) :
    (splitextList cs).1 ++ (splitextList cs).2 = cs := by
  unfold splitextList
  dsimp only
  split
  · split
    · exact List.take_append_drop _ _
    · exact List.append_nil cs
  · exact List.append_nil cs

theorem asString_append (a b : List Char) :
    a.asString ++ b.asString = (a ++ b).asString := rfl

theorem splitext_append (p : String) :
    (splitext p).1 ++ (splitext p).2 = p := by
  unfold splitext
  rw [asString_append, splitextList_append]
  cases p with
  | mk data => rfl

/-- C9. When no output option is given the destination is the input's
stem, then the literal `_compressed`, then the input's original
extension — stem and extension being exactly the two `os.path.splitext`
halves of the input path, so the file stays in the input's directory;
concretely, `dir/a.pdf` becomes `dir/a_compressed.pdf`. -/
theorem default_output_path :
    (∀ input_pdf : String,
      resolveOutput none input_pdf =
          (splitext input_pdf).1 ++ "_compressed" ++ (splitext input_pdf).2 ∧
        (splitext input_pdf).1 ++ (splitext input_pdf).2 = input_pdf) ∧
    resolveOutput none "dir/a.pdf" = "dir/a_compressed.pdf" := by
  refine ⟨fun p => ⟨rfl, splitext_append p⟩, ?_⟩
  rfl

end PdfCompressor
